import Mathlib

/-!
Verification development for the embroider rspack resolver plugin
(`packages/rspack/src/rspack-resolver-plugin.ts` and the compilation-tap
variant of the same file).

The embedding represents JavaScript strings as lists of characters
(`Str := List Char`), so that every definition is executable and decidable.
Platform primitives used by the source (Node `path.dirname` / `path.join` /
`path.resolve`, the WHATWG `URLSearchParams` codec, `fs.existsSync`,
`JSON.parse` of a package manifest) are modelled as explicit total functions
over this representation; the filesystem is an explicit finite structure.
-/

namespace Embroider

/-- Character-list strings: the representation of JavaScript strings in this
embedding. -/
abbrev Str := List Char

/-- Substring test, the model of JavaScript `String.prototype.includes`. -/
def containsSub (s pat : Str) : Bool :=
  match s with
  | [] => pat.isEmpty
  | _ :: t => pat.isPrefixOf s || containsSub t pat

/-- Test whether a string starts with a given character. -/
def startsWithC (c : Char) (s : Str) : Bool :=
  match s with
  | [] => false
  | x :: _ => x = c

/-- Split a string on every occurrence of a separator character
(the model of `String.prototype.split` with a single-character separator). -/
def splitOnC (c : Char) : Str → List Str
  | [] => [[]]
  | x :: xs =>
    if x = c then [] :: splitOnC c xs
    else
      match splitOnC c xs with
      | s :: ss => (x :: s) :: ss
      | [] => [[x]]

/-- Join a list of strings with a separator string. -/
def interJoin (sep : Str) : List Str → Str
  | [] => []
  | [s] => s
  | s :: rest => s ++ sep ++ interJoin sep rest

/-- Index of the last occurrence of a character, if any. -/
def lastIdx (c : Char) (l : Str) : Option Nat :=
  (l.reverse.findIdx? (fun x => x = c)).map (fun j => l.length - 1 - j)

/-- Remove trailing occurrences of a slash. -/
def stripTrail (l : Str) : Str :=
  (l.reverse.dropWhile (fun x => x = '/')).reverse

/-- Model of Node `path.dirname` (posix): characters after the last relevant
slash are removed; the scan skips trailing slashes and never cuts at index 0,
exactly as in Node's implementation. -/
def dirname : Str → Str
  | [] => ['.']
  | c0 :: rest =>
    let r := stripTrail rest
    match lastIdx '/' r with
    | none => if c0 = '/' then ['/'] else ['.']
    | some i => if c0 = '/' ∧ i = 0 then ['/', '/'] else c0 :: r.take i

/-- Normalisation step shared by the `path.join` / `path.resolve` models:
drop empty and `.` segments and resolve `..` against the accumulated prefix. -/
def normSegs (absolute : Bool) (segs : List Str) : List Str :=
  segs.foldl
    (fun acc seg =>
      if seg = ([] : Str) ∨ seg = ['.'] then acc
      else if seg = ['.', '.'] then
        match acc.getLast? with
        | some last => if last = ['.', '.'] then acc ++ [seg] else acc.dropLast
        | none => if absolute then acc else acc ++ [seg]
      else acc ++ [seg])
    []

/-- Model of Node `path.join`: concatenate the non-empty parts with slashes and
normalise the result (trailing-slash preservation is irrelevant to the inputs
the plugin joins and is not modelled). -/
def joinPaths (parts : List Str) : Str :=
  let joined := interJoin ['/'] (parts.filter (fun p => p ≠ ([] : Str)))
  if joined = ([] : Str) then ['.']
  else
    let absolute := startsWithC '/' joined
    let segs := normSegs absolute (splitOnC '/' joined)
    let core := interJoin ['/'] segs
    let res := if absolute then '/' :: core else core
    if res = ([] : Str) then ['.'] else res

/-- Model of Node `path.resolve base entry` as the plugin uses it (the base is
an absolute package directory): an absolute entry wins, otherwise it is joined
onto the base. -/
def resolvePath (base entry : Str) : Str :=
  if startsWithC '/' entry then joinPaths [entry] else joinPaths [base, entry]

/-! ### The WHATWG `application/x-www-form-urlencoded` codec

The plugin builds and parses virtual-loader query strings with
`URLSearchParams`.  The serializer keeps the bytes `*-._` and alphanumerics,
turns a space into `+`, and percent-encodes every other UTF-8 byte; the parser
splits on `&` and the first `=`, replaces `+` by a space, percent-decodes and
then UTF-8-decodes. -/

/-- UTF-8 encoding of one character (byte values as natural numbers). -/
def utf8Bytes (c : Char) : List Nat :=
  if c.toNat < 128 then [c.toNat]
  else if c.toNat < 2048 then [192 + c.toNat / 64, 128 + c.toNat % 64]
  else if c.toNat < 65536 then
    [224 + c.toNat / 4096, 128 + c.toNat / 64 % 64, 128 + c.toNat % 64]
  else
    [240 + c.toNat / 262144, 128 + c.toNat / 4096 % 64, 128 + c.toNat / 64 % 64,
     128 + c.toNat % 64]

/-- One step of UTF-8 decoding: consume the scalar starting at the head of a
non-empty byte list, returning the decoded character (U+FFFD on an invalid
sequence, whose byte consumption is approximate — it only matters for inputs
the plugin never produces) and the remaining bytes. -/
def utf8Step : List Nat → Char × List Nat
  | [] => ('�', [])
  | b :: rest =>
    if b < 128 then (Char.ofNat b, rest)
    else if 194 ≤ b ∧ b < 224 then
      match rest with
      | b2 :: rest2 =>
        if 128 ≤ b2 ∧ b2 < 192 then
          (Char.ofNat ((b - 192) * 64 + (b2 - 128)), rest2)
        else ('�', rest)
      | [] => ('�', [])
    else if 224 ≤ b ∧ b < 240 then
      match rest with
      | b2 :: b3 :: rest3 =>
        if (128 ≤ b2 ∧ b2 < 192) ∧ (128 ≤ b3 ∧ b3 < 192) then
          (Char.ofNat ((b - 224) * 4096 + (b2 - 128) * 64 + (b3 - 128)), rest3)
        else ('�', rest)
      | _ => ('�', [])
    else if 240 ≤ b ∧ b < 245 then
      match rest with
      | b2 :: b3 :: b4 :: rest4 =>
        if (128 ≤ b2 ∧ b2 < 192) ∧ ((128 ≤ b3 ∧ b3 < 192) ∧ (128 ≤ b4 ∧ b4 < 192)) then
          (Char.ofNat
            ((b - 240) * 262144 + (b2 - 128) * 4096 + (b3 - 128) * 64 + (b4 - 128)),
           rest4)
        else ('�', rest)
      | _ => ('�', [])
    else ('�', rest)

/-- Iterate `utf8Step`; the fuel argument (instantiated with the list length)
only makes the recursion structural and never runs out. -/
def utf8DecodeAux : Nat → List Nat → Str
  | 0, _ => []
  | _, [] => []
  | fuel + 1, b :: rest =>
    (utf8Step (b :: rest)).1 :: utf8DecodeAux fuel (utf8Step (b :: rest)).2

/-- UTF-8 decoding of a byte list. -/
def utf8Decode (l : List Nat) : Str :=
  utf8DecodeAux l.length l

/-- Bytes the urlencoded serializer passes through unchanged:
alphanumerics and `*`, `-`, `.`, `_`. -/
def safeByte (b : Nat) : Bool :=
  (48 ≤ b && b ≤ 57) || (65 ≤ b && b ≤ 90) || (97 ≤ b && b ≤ 122) ||
    b == 42 || b == 45 || b == 46 || b == 95

/-- Upper-case hexadecimal digit for a value below 16. -/
def hexUpper (n : Nat) : Char :=
  if n < 10 then Char.ofNat (48 + n) else Char.ofNat (55 + n)

/-- Serialize one byte the way `URLSearchParams.toString` does: safe bytes
stay, a space becomes `+`, anything else becomes `%XX`. -/
def encByte (b : Nat) : Str :=
  if safeByte b then [Char.ofNat b]
  else if b = 32 then ['+']
  else ['%', hexUpper (b / 16), hexUpper (b % 16)]

/-- Byte-level image of `encByte` (the code units it emits, all ASCII). -/
def encByteB (b : Nat) : List Nat :=
  if safeByte b then [b]
  else if b = 32 then [43]
  else [37, (hexUpper (b / 16)).toNat, (hexUpper (b % 16)).toNat]

/-- Urlencoded serialization of one string component. -/
def encStr (v : Str) : Str :=
  (v.flatMap utf8Bytes).flatMap encByte

/-- Serialization of a query-parameter list, the model of
`URLSearchParams.toString`. -/
def serializeQuery (ps : List (Str × Str)) : Str :=
  interJoin ['&'] (ps.map (fun kv => encStr kv.1 ++ '=' :: encStr kv.2))

/-- Value of one hexadecimal-digit byte. -/
def hexDigitVal (b : Nat) : Option Nat :=
  if 48 ≤ b ∧ b ≤ 57 then some (b - 48)
  else if 65 ≤ b ∧ b ≤ 70 then some (b - 55)
  else if 97 ≤ b ∧ b ≤ 102 then some (b - 87)
  else none

/-- One step of percent-and-plus decoding on a non-empty byte list: `%XX`
becomes the byte `XX`, a `+` becomes a space, a stray `%` is kept literally;
returns the decoded byte and the remaining input. -/
def pdStep : List Nat → Nat × List Nat
  | [] => (0, [])
  | b :: rest =>
    if b = 37 then
      match rest with
      | h1 :: h2 :: rest2 =>
        match hexDigitVal h1, hexDigitVal h2 with
        | some d1, some d2 => (16 * d1 + d2, rest2)
        | _, _ => (37, h1 :: h2 :: rest2)
      | _ => (37, rest)
    else if b = 43 then (32, rest)
    else (b, rest)

/-- Iterate `pdStep`; the fuel argument (instantiated with the list length)
only makes the recursion structural and never runs out. -/
def pdAux : Nat → List Nat → List Nat
  | 0, _ => []
  | _, [] => []
  | fuel + 1, b :: rest => (pdStep (b :: rest)).1 :: pdAux fuel (pdStep (b :: rest)).2

/-- Percent-and-plus decoding of a byte list. -/
def pdBytes (l : List Nat) : List Nat := pdAux l.length l

/-- Decode one urlencoded component back to a string. -/
def decodeComp (s : Str) : Str :=
  utf8Decode (pdBytes (s.flatMap utf8Bytes))

/-- Parse a query string into its parameter list, the model of the
`URLSearchParams` constructor: split on `&`, split each non-empty piece at its
first `=`, decode name and value. -/
def parseQuery (q : Str) : List (Str × Str) :=
  (splitOnC '&' q).filterMap
    (fun p =>
      if p = ([] : Str) then none
      else
        some (decodeComp (p.takeWhile (fun c => c ≠ '=')),
              decodeComp ((p.dropWhile (fun c => c ≠ '=')).drop 1)))

/-- First value recorded for a key, the model of `URLSearchParams.get`
(returning `none` for JavaScript `null`). -/
def getParam (q key : Str) : Option Str :=
  ((parseQuery q).find? (fun kv => kv.1 == key)).map (fun kv => kv.2)

/-! ### Fixed strings of the plugin -/

/-- The module name of the virtual loader (`virtualLoaderName` in the source). -/
def virtualLoaderNameS : Str := ("@embroider/rspack/src/virtual-loader").toList

/-- The implicit-modules marker substring. -/
def implicitMarkerS : Str := ("-embroider-implicit-").toList

/-- The export-restricted failure signature the fallback resolver looks for. -/
def ppneS : Str := ("PackagePathNotExported").toList

/-- The rewritten-app marker consulted during implicit-modules issuer
repair. -/
def rewrittenAppS : Str := ("rewritten-app").toList

/-- The implicit-modules file name marker consulted during issuer repair. -/
def implicitModulesJsS : Str := ("-embroider-implicit-modules.js").toList

/-- The file name appended to the context directory when synthesizing an
implicit-modules issuer. -/
def implicitIssuerSuffixS : Str := ("/-embroider-implicit-modules.js").toList

/-- The predicate selecting a tracked filename usable as fallback issuer for
an implicit-modules request. -/
def implicitIssuerPred : Str → Bool :=
  fun v => containsSub v rewrittenAppS && containsSub v implicitModulesJsS

/-! ### The virtual-module context tracker

A JavaScript `Map` from directory to virtual-module filename, modelled as an
insertion-ordered association list. -/

/-- Insertion-ordered map from context directory to virtual filename. -/
abbrev Tracker := List (Str × Str)

/-- Model of `Map.prototype.get`. -/
def trackGet (t : Tracker) (k : Str) : Option Str :=
  (t.find? (fun kv => kv.1 == k)).map (fun kv => kv.2)

/-- Model of `Map.prototype.set`: replace in place if the key is present,
otherwise append (preserving insertion order, as a JavaScript Map does). -/
def trackSet (t : Tracker) (k v : Str) : Tracker :=
  if (t.find? (fun kv => kv.1 == k)).isSome then
    t.map (fun kv => if kv.1 == k then (k, v) else kv)
  else t ++ [(k, v)]

/-- First tracked value (in insertion order) satisfying a predicate; the model
of iterating `virtualModuleContexts.entries()` and breaking at a match. -/
def trackFirst (t : Tracker) (pred : Str → Bool) : Option Str :=
  (t.find? (fun kv => pred kv.2)).map (fun kv => kv.2)

/-! ### Raw host records and the request model -/

/-- Opaque issuer metadata (`_embroiderMeta`), modelled as an association
list. -/
abbrev Meta := List (Str × Str)

/-- The `contextInfo` object of a raw rspack resolve-data record. -/
structure ContextInfo where
  issuer : Str
  meta : Option Meta
deriving DecidableEq, Repr

/-- Raw mutable record handed to the resolve hook, as the factory-tap variant
reads it: `request`, `context` (both assumed string-typed, matching the
source's `typeof` guards) and an optional `contextInfo`. -/
structure RawState where
  request : Str
  context : Str
  contextInfo : Option ContextInfo
deriving DecidableEq, Repr

/-- The state shape the `RspackModuleRequest` constructor declares: the same
record with a definitely-present `contextInfo`. -/
structure ReqState where
  request : Str
  context : Str
  issuer : Str
  meta : Option Meta
deriving DecidableEq, Repr

/-- The immutable request model (`RspackModuleRequest`): configuration, the
shared record as of this instance, and the captured snapshot fields. -/
structure RMRequest where
  babelLoaderPre : Str
  appRoot : Str
  state : ReqState
  isVirtual : Bool
  specifier : Str
  fromFile : Str
  meta : Option Meta
deriving DecidableEq, Repr

/-- The constructor body: capture `state.request`, `state.contextInfo.issuer`
and a copy of `state.contextInfo._embroiderMeta`. -/
def mkRequest (p a : Str) (st : ReqState) (isV : Bool) : RMRequest :=
  ⟨p, a, st, isV, st.request, st.issuer, st.meta⟩

/-- The `alias` transformation: rewrite the shared record's request and return
a fresh instance built from the mutated record. -/
def RMRequest.alias (r : RMRequest) (newSpecifier : Str) : RMRequest :=
  mkRequest r.babelLoaderPre r.appRoot
    { r.state with request := newSpecifier } false

/-- The `rehome` transformation: idempotent when the issuer already matches,
otherwise rewrite issuer and context and return a fresh instance. -/
def RMRequest.rehome (r : RMRequest) (newFromFile : Str) : RMRequest :=
  if r.fromFile == newFromFile then r
  else
    mkRequest r.babelLoaderPre r.appRoot
      { r.state with issuer := newFromFile, context := dirname newFromFile } false

/-- The `virtualize` transformation: encode the filename and app root as
urlencoded query parameters, alias to the virtual-loader specifier and mark
the new instance virtual. -/
def RMRequest.virtualize (r : RMRequest) (filename : Str) : RMRequest :=
  let q := serializeQuery [(['f'], filename), (['a'], r.appRoot)]
  let next := r.alias (r.babelLoaderPre ++ virtualLoaderNameS ++ '?' :: q ++ ['!'])
  { next with isVirtual := true }

/-- The `withMeta` transformation: store the metadata on the shared record and
return a fresh instance. -/
def RMRequest.withMeta (r : RMRequest) (m : Option Meta) : RMRequest :=
  mkRequest r.babelLoaderPre r.appRoot { r.state with meta := m } false

/-! ### Filesystem model for the manual-resolution probes -/

/-- The two package-manifest fields the fallback resolver consults.  A field
is `none` when absent; `JSON.parse` failure of the whole manifest is the
`none` case of `FS.readManifest`. -/
structure Manifest where
  modField : Option Str
  mainField : Option Str
deriving DecidableEq, Repr

/-- Finite filesystem: the set of existing paths and the parse results of the
present `package.json` files. -/
structure FS where
  files : List Str
  manifests : List (Str × Option Manifest)
deriving Repr

/-- Model of `fs.existsSync`. -/
def FS.existsP (fs : FS) (p : Str) : Bool :=
  fs.files.contains p

/-- Model of `JSON.parse(fs.readFileSync(p))`: `none` when the parse throws
(the source catches that per-candidate). -/
def FS.readManifest (fs : FS) (p : Str) : Option Manifest :=
  match fs.manifests.find? (fun kv => kv.1 == p) with
  | some kv => kv.2
  | none => none

/-- Entry-point candidates of a manifest, in the source's order: the `module`
field, the `main` field (dropping absent or empty values, as
`.filter(Boolean)` does), then the four fixed fallbacks. -/
def entryPoints (m : Manifest) : List Str :=
  (([m.modField, m.mainField].filterMap id).filter (fun s => s ≠ ([] : Str))) ++
    [("src/index.js").toList, ("src/index.ts").toList,
     ("index.js").toList, ("index.ts").toList]

/-! ### Specifier classification (the fallback resolver's two regexes)

The source tests `^(@?[^\/]+\/[^\/]+)\/(.+)$` (subpath) and then
`^(@?[^\/]+\/[^\/]+)$` (root).  Since `[^\/]+` cannot cross a slash and
already admits a leading `@`, both package-name groups denote exactly two
non-empty slash-free segments. -/

/-- Classification outcome of a specifier under manual resolution. -/
inductive Classify where
  | subpathImp (packageName subpath : Str)
  | rootImp (packageName : Str)
  | neither
deriving DecidableEq, Repr

/-- Match the shared `@?[^\/]+\/[^\/]+` package-name group at the start of a
specifier, returning the group and the remainder. -/
def matchTwoSeg (s : Str) : Option (Str × Str) :=
  let seg0 := s.takeWhile (fun c => c ≠ '/')
  if seg0 = ([] : Str) then none
  else
    match s.drop seg0.length with
    | '/' :: rest1 =>
      let seg1 := rest1.takeWhile (fun c => c ≠ '/')
      if seg1 = ([] : Str) then none
      else some (seg0 ++ '/' :: seg1, rest1.drop seg1.length)
    | _ => none

/-- Classify a specifier exactly as the two regexes do. -/
def classify (s : Str) : Classify :=
  match matchTwoSeg s with
  | some (pkg, rest) =>
    match rest with
    | '/' :: sub => if sub = ([] : Str) then .neither else .subpathImp pkg sub
    | [] => .rootImp pkg
    | _ => .neither
  | none => .neither

/-- The ascending candidate package directories: under the context directory,
its parent and its grandparent. -/
def candidatePackageDirs (context pkg : Str) : List Str :=
  [joinPaths [context, ("node_modules").toList, pkg],
   joinPaths [context, ("..").toList, ("node_modules").toList, pkg],
   joinPaths [context, ("..").toList, ("..").toList, ("node_modules").toList, pkg]]

/-- The ordered candidate files for a subpath inside a package directory. -/
def candidatePaths (packageDir subpath : Str) : List Str :=
  [joinPaths [packageDir, ("src").toList, subpath ++ (".js").toList],
   joinPaths [packageDir, ("src").toList, subpath ++ (".ts").toList],
   joinPaths [packageDir, ("src").toList, subpath, ("index.js").toList],
   joinPaths [packageDir, ("src").toList, subpath, ("index.ts").toList],
   joinPaths [packageDir, subpath ++ (".js").toList],
   joinPaths [packageDir, subpath ++ (".ts").toList],
   joinPaths [packageDir, subpath, ("index.js").toList],
   joinPaths [packageDir, subpath, ("index.ts").toList]]

/-- Probe a list of paths in order; the result pairs the first existing path
(if any) with the list of paths whose existence was actually checked. -/
def firstHit (fs : FS) : List Str → Option Str × List Str
  | [] => (none, [])
  | p :: rest =>
    if fs.existsP p then (some p, [p])
    else
      let r := firstHit fs rest
      (r.1, p :: r.2)

/-- The subpath manual search: for each candidate package directory that
exists, probe the candidate files in order; on a miss continue with the next
directory. -/
def subpathSearch (fs : FS) (dirs : List Str) (subpath : Str) : Option Str × List Str
  := match dirs with
  | [] => (none, [])
  | d :: rest =>
    if fs.existsP d then
      match firstHit fs (candidatePaths d subpath) with
      | (some hit, pr) => (some hit, d :: pr)
      | (none, pr) =>
        let r := subpathSearch fs rest subpath
        (r.1, d :: pr ++ r.2)
    else
      let r := subpathSearch fs rest subpath
      (r.1, d :: r.2)

/-- The root-package manual search: for each existing candidate directory,
read its `package.json` (a missing file or failed parse moves on to the next
directory) and probe the resolved entry points in order. -/
def rootSearch (fs : FS) : List Str → Option Str × List Str
  | [] => (none, [])
  | d :: rest =>
    if fs.existsP d then
      let pj := joinPaths [d, ("package.json").toList]
      if fs.existsP pj then
        match fs.readManifest pj with
        | some m =>
          match firstHit fs ((entryPoints m).map (resolvePath d)) with
          | (some hit, pr) => (some hit, d :: pj :: pr)
          | (none, pr) =>
            let r := rootSearch fs rest
            (r.1, d :: pj :: pr ++ r.2)
        | none =>
          let r := rootSearch fs rest
          (r.1, d :: pj :: r.2)
      else
        let r := rootSearch fs rest
        (r.1, d :: pj :: r.2)
    else
      let r := rootSearch fs rest
      (r.1, d :: r.2)

/-! ### The fallback resolver (`getAdaptedResolve`, factory-tap variant) -/

/-- Error payload of a failed resolution: the native resolver's error, or the
synthesized module-not-found error (`err || new Error(...)`). -/
inductive ResolutionErr where
  | native (msg : Str)
  | moduleNotFound (specifier : Str)
deriving DecidableEq, Repr

/-- The two-variant resolution outcome. -/
inductive Outcome where
  | found
  | notFound (err : ResolutionErr)
deriving DecidableEq, Repr

/-- Result of one native-resolver invocation: an optional error message and an
optional resolved path (`none` covering `undefined` and `false`). -/
structure NativeResult where
  err : Option Str
  result : Option Str
deriving DecidableEq, Repr

/-- Everything one fallback-resolver run produces: the outcome, the record's
request afterwards, the tracker afterwards, whether the native resolver was
invoked, and the filesystem paths probed (in order). -/
structure FbRun where
  outcome : Outcome
  request : Str
  tracker : Tracker
  nativeInvoked : Bool
  probes : List Str
deriving Repr

/-- The regex `/\?([^!]+)/`: the first `?` followed by a non-empty run of
non-`!` characters, capturing that run. -/
def extractQueryAny : Str → Option Str
  | [] => none
  | c :: rest =>
    if c = '?' then
      let q := rest.takeWhile (fun x => x ≠ '!')
      if q = ([] : Str) then extractQueryAny rest else some q
    else extractQueryAny rest

/-- The regex built from `escapeRegExp(needle) + "\\?([^!]+)"`: the first
occurrence of the needle followed by `?` and a non-empty run of non-`!`
characters. -/
def extractQueryAfter (needle : Str) : Str → Option Str
  | [] => none
  | c :: t =>
    if (needle ++ ['?']).isPrefixOf (c :: t) then
      let rest := (c :: t).drop (needle.length + 1)
      let q := rest.takeWhile (fun x => x ≠ '!')
      if q = ([] : Str) then extractQueryAfter needle t else some q
    else extractQueryAfter needle t

/-- Tracker bookkeeping shared by the loader-chain branch and request
construction: extract the `f` query parameter and record
`dirname f -> f` when it is a non-empty string (`if (filename)` in the
source). -/
def trackFromQuery (tracker : Tracker) (q : Option Str) : Tracker :=
  match q with
  | some qs =>
    match getParam qs ['f'] with
    | some fn => if fn = ([] : Str) then tracker else trackSet tracker (dirname fn) fn
    | none => tracker
  | none => tracker

/-- Choose `err || new Error('Module not found: …')`. -/
def errOrSynth (e : Option Str) (req : Str) : ResolutionErr :=
  match e with
  | some m => .native m
  | none => .moduleNotFound req

/-- The fallback resolver of the factory-tap variant, as a pure function of
the filesystem, the native resolver, the tracker and the request's current
issuer (`fromFile`) and specifier (`state.request`). -/
def adaptedResolve (fs : FS) (native : Str → Str → NativeResult)
    (tracker : Tracker) (fromFile req : Str) : FbRun :=
  let context := dirname fromFile
  if containsSub req ['!'] then
    let tracker' :=
      if containsSub req virtualLoaderNameS then
        trackFromQuery tracker (extractQueryAfter virtualLoaderNameS req)
      else tracker
    ⟨.found, req, tracker', false, []⟩
  else
    let r := native context req
    if r.err.isNone ∧ r.result.isSome then ⟨.found, req, tracker, true, []⟩
    else
      let failErr := errOrSynth r.err req
      let isPPNE :=
        match r.err with
        | some m => containsSub m ppneS
        | none => false
      if isPPNE then
        match classify req with
        | .subpathImp pkg sub =>
          match subpathSearch fs (candidatePackageDirs context pkg) sub with
          | (some hit, pr) => ⟨.found, hit, tracker, true, pr⟩
          | (none, pr) => ⟨.notFound failErr, req, tracker, true, pr⟩
        | .rootImp pkg =>
          match rootSearch fs (candidatePackageDirs context pkg) with
          | (some hit, pr) => ⟨.found, hit, tracker, true, pr⟩
          | (none, pr) => ⟨.notFound failErr, req, tracker, true, pr⟩
        | .neither => ⟨.notFound failErr, req, tracker, true, []⟩
      else ⟨.notFound failErr, req, tracker, true, []⟩

/-! ### Request construction (`RspackModuleRequest.from`, factory-tap variant) -/

/-- Construction outcome: declined (`undefined`), a constructed request, or a
crash of the constructor (a thrown `TypeError` from reading a field of an
absent `contextInfo`). -/
inductive FromOutcome where
  | declined
  | constructed (req : RMRequest)
  | crash
deriving DecidableEq, Repr

/-- Result of one `from` call: the outcome plus the record and tracker as the
call leaves them. -/
structure FromRun where
  outcome : FromOutcome
  state : RawState
  tracker : Tracker
deriving Repr

/-- The expression `state.contextInfo?.issuer || ''`. -/
def issuerOf (st : RawState) : Str :=
  match st.contextInfo with
  | some ci => ci.issuer
  | none => []

/-- The repair pattern `if (!state.contextInfo) state.contextInfo = {issuer: ''}`
followed by `state.contextInfo.issuer = i`. -/
def setIssuer (st : RawState) (i : Str) : RawState :=
  match st.contextInfo with
  | some ci => { st with contextInfo := some { ci with issuer := i } }
  | none => { st with contextInfo := some { issuer := i, meta := none } }

/-- The final `new RspackModuleRequest(...)` call: reading
`state.contextInfo.issuer` on an absent `contextInfo` throws. -/
def mkFromState (p a : Str) (st : RawState) : FromOutcome :=
  match st.contextInfo with
  | some ci =>
    .constructed (mkRequest p a ⟨st.request, st.context, ci.issuer, ci.meta⟩ false)
  | none => .crash

/-- The tail of `from`: construct when a valid issuer is available or the
request is an implicit-modules request, otherwise decline. -/
def finishFrom (p a : Str) (st : RawState) (tracker : Tracker) : FromRun :=
  let hasValidIssuer :=
    match st.contextInfo with
    | some ci => ci.issuer != ([] : Str)
    | none => false
  let isImplicit := containsSub st.request implicitMarkerS
  if hasValidIssuer || isImplicit then ⟨mkFromState p a st, st, tracker⟩
  else ⟨.declined, st, tracker⟩

/-- `RspackModuleRequest.from` of the factory-tap variant (the one with the
context tracker): bookkeeping for virtual-loader traffic, loader-escape
rejection, issuer repair for implicit-modules requests and for requests whose
context directory is tracked, then the construction decision.  The `typeof`
string guards are implicit in the `Str`-typed record. -/
def fromTracker (p a : Str) (st : RawState) (tracker : Tracker) : FromRun :=
  if containsSub st.request virtualLoaderNameS then
    ⟨.declined, st, trackFromQuery tracker (extractQueryAny st.request)⟩
  else if startsWithC '!' st.request then ⟨.declined, st, tracker⟩
  else if issuerOf st = ([] : Str) then
    if containsSub st.request implicitMarkerS then
      let fallbackIssuer :=
        match trackFirst tracker implicitIssuerPred with
        | some v => some v
        | none =>
          if containsSub st.context rewrittenAppS then
            some (st.context ++ implicitIssuerSuffixS)
          else none
      match fallbackIssuer with
      | some fi => finishFrom p a (setIssuer st fi) tracker
      | none => finishFrom p a st tracker
    else
      match trackGet tracker st.context with
      | some vm => finishFrom p a (setIssuer st vm) tracker
      | none => ⟨.declined, st, tracker⟩
  else finishFrom p a st tracker

/-! ### The compilation-tap variant (`RspackModuleRequest.from` of the second
source file) -/

/-- Raw record as the compilation-tap variant reads it: additionally carries
`state.dependencies`, each dependency contributing its
`_parentModule?.userRequest` (or `none`). -/
structure RawStateC where
  request : Str
  context : Str
  contextInfo : Option ContextInfo
  deps : Option (List (Option Str))
deriving DecidableEq, Repr

/-- Result of the compilation-tap `from`. -/
structure FromRunC where
  outcome : FromOutcome
  state : RawStateC
deriving Repr

/-- The `virtualRequestPattern` regex
(`escapeRegExp(virtualLoaderPath) + "\\?(?<query>.+)!"`): first occurrence of
the loader path followed by `?`, greedily capturing up to the last `!`
provided at least one character stands in between.  A missing `userRequest`
never matches (the regex sees the string `"undefined"`). -/
def extractGreedy (needle : Str) : Str → Option Str
  | [] => none
  | c :: t =>
    if (needle ++ ['?']).isPrefixOf (c :: t) then
      let rest := (c :: t).drop (needle.length + 1)
      match lastIdx '!' rest with
      | some i => if 1 ≤ i then some (rest.take i) else extractGreedy needle t
      | none => extractGreedy needle t
    else extractGreedy needle t

/-- One step of the dependency loop: on a pattern match, write the decoded `f`
parameter into `contextInfo.issuer` and recompute `context`; a `none` result
models the thrown `TypeError` (absent `contextInfo`, or `get('f')` returning
`null` and `dirname(null)` throwing). -/
def repairDep (vpath : Str) (st : RawStateC) (u : Option Str) : Option RawStateC :=
  match u with
  | none => some st
  | some s =>
    match extractGreedy vpath s with
    | none => some st
    | some q =>
      match st.contextInfo with
      | none => none
      | some ci =>
        match getParam q ['f'] with
        | some fn =>
          some { st with contextInfo := some { ci with issuer := fn },
                         context := dirname fn }
        | none => none

/-- Fold the dependency loop over all dependencies, stopping at a crash. -/
def repairDeps (vpath : Str) (st : RawStateC) : List (Option Str) → Option RawStateC
  | [] => some st
  | u :: rest =>
    match repairDep vpath st u with
    | some st' => repairDeps vpath st' rest
    | none => none

/-- `RspackModuleRequest.from` of the compilation-tap variant: repair an empty
issuer from any dependency whose parent module is a virtual request, then
construct only for a string, non-empty issuer on a request that neither
mentions the virtual loader nor starts with `!`. -/
def fromCompilation (vpath p a : Str) (st : RawStateC) : FromRunC :=
  let repaired :=
    if issuerOf ⟨st.request, st.context, st.contextInfo⟩ = ([] : Str) ∧ st.deps.isSome then
      repairDeps vpath st (st.deps.getD [])
    else some st
  match repaired with
  | none => ⟨.crash, st⟩
  | some st' =>
    match st'.contextInfo with
    | some ci =>
      if ci.issuer ≠ ([] : Str) ∧
          containsSub st'.request virtualLoaderNameS = false ∧
          startsWithC '!' st'.request = false then
        ⟨.constructed (mkRequest p a ⟨st'.request, st'.context, ci.issuer, ci.meta⟩ false), st'⟩
      else ⟨.declined, st'⟩
    | none => ⟨.declined, st'⟩

/-! ### The hook's completion callback (`apply`) -/

/-- How the resolve hook completes toward the host. -/
inductive CallbackCall where
  | errorFree
  | withError (e : ResolutionErr)
deriving DecidableEq, Repr

/-- The factory-tap variant's switch over the resolution outcome: `not_found`
deliberately completes without the error ("just let the normal resolution
chain continue"), `found` completes with `null`. -/
def dispatchTracker : Outcome → CallbackCall
  | .found => .errorFree
  | .notFound _ => .errorFree

/-- The compilation-tap variant's switch: `not_found` completes with
`resolution.err`. -/
def dispatchCompilation : Outcome → CallbackCall
  | .found => .errorFree
  | .notFound e => .withError e

/-! ## Concrete scenarios used by the claim theorems -/

/-- A native resolver that always fails with the export-restricted
signature. -/
def nativePPNE : Str → Str → NativeResult :=
  fun _ _ => ⟨some (("error: PackagePathNotExported in pkg").toList), none⟩

/-- A native resolver that never gets to answer (used where the loader-chain
branch must short-circuit). -/
def nativeNever : Str → Str → NativeResult :=
  fun _ _ => ⟨none, some (("/never").toList)⟩

/-- The candidate package directory under the context of the concrete
scenarios. -/
def pkgDir1 : Str := ("/proj/app/node_modules/@scope/pkg").toList

/-- Filesystem for the subpath scenario: the package directory and
`src/deep/path.ts` exist, nothing else. -/
def fsSubpath : FS := ⟨[pkgDir1, pkgDir1 ++ ("/src/deep/path.ts").toList], []⟩

/-- Filesystem for the root-package scenario: the package directory, its
manifest (`{"main": "./index.js"}`, no `module` field) and `index.js`
exist. -/
def fsRoot : FS :=
  ⟨[pkgDir1, pkgDir1 ++ ("/package.json").toList, pkgDir1 ++ ("/index.js").toList],
   [(pkgDir1 ++ ("/package.json").toList, some ⟨none, some (("./index.js").toList)⟩)]⟩

/-- An empty filesystem. -/
def fsEmpty : FS := ⟨[], []⟩

/-- A virtualized specifier carrying `f=/app/foo.js` and `a=/app` (the
urlencoded form `URLSearchParams` produces). -/
def reqVirt : Str := virtualLoaderNameS ++ ("?f=%2Fapp%2Ffoo.js&a=%2Fapp!").toList

/-- Raw record of the C8 scenarios: empty issuer, plain relative request,
context `/app`. -/
def stPlain : RawState := ⟨("./thing").toList, ("/app").toList, some ⟨[], none⟩⟩

/-- Raw record whose request carries the loader-escape marker `!`. -/
def stBang : RawState := ⟨("!x").toList, ("/app").toList, some ⟨[], none⟩⟩

/-- Tracker holding the entry `/app -> /app/foo.js`. -/
def trApp : Tracker := [(("/app").toList, ("/app/foo.js").toList)]

/-- Raw record of the C10 scenario: an implicit-modules request with an
absent `contextInfo` and a context that offers no fallback issuer. -/
def stImplicitNoCtx : RawState :=
  ⟨("/x/-embroider-implicit-modules.js").toList, ("/x").toList, none⟩

/-- Compilation-tap record of the C3 counterexample: empty issuer, a
loader-escape request, and a dependency whose parent module is a virtual
request for `/app/foo.js`. -/
def stDepRepair : RawStateC :=
  ⟨("!x").toList, ("/old").toList, some ⟨[], none⟩,
   some [some (("/plugin/virtual-loader.js?f=%2Fapp%2Ffoo.js!").toList)]⟩

/-- The resolved virtual-loader path of the compilation-tap variant in the
concrete scenario. -/
def vpath0 : Str := ("/plugin/virtual-loader.js").toList

/-! ## Claim C1 -/

/-- Counterexample to claim C1 as stated: in the factory-tap variant, a
resolution that ends `not_found` with a causing error completes the host
callback error-free (exactly as a declined request would), not with the
error. -/
theorem C1_counterexample :
    dispatchTracker (.notFound (.native (("cannot resolve ./x").toList))) =
      .errorFree ∧
    dispatchTracker (.notFound (.native (("cannot resolve ./x").toList))) ≠
      .withError (.native (("cannot resolve ./x").toList)) := by
  decide

/-- Claim C1, amended: on a `not_found` outcome the compilation-tap variant
invokes the completion callback with the causing error, while the factory-tap
variant invokes it error-free so that the host's normal resolution chain
continues. -/
theorem C1_amended_dispatch (e : ResolutionErr) :
    dispatchCompilation (.notFound e) = .withError e ∧
    dispatchTracker (.notFound e) = .errorFree :=
  ⟨rfl, rfl⟩

/-! ## Claim C2 -/

/-- Counterexample to claim C2 as stated: the unscoped bare specifier
`lodash` is classified as neither a root nor a subpath import, and
`lodash/fp` is classified as a root import of the package `lodash/fp`, not as
a subpath import of `lodash`. -/
theorem C2_counterexample :
    classify (("lodash").toList) = .neither ∧
    classify (("lodash/fp").toList) = .rootImp (("lodash/fp").toList) ∧
    classify (("lodash/fp").toList) ≠
      .subpathImp (("lodash").toList) (("fp").toList) := by
  decide

/-! ## Claim C4 -/

/-- Claim C4: for the subpath specifier `@scope/pkg/deep/path` under an
export-restricted native failure, with `node_modules/@scope/pkg/src/deep/path.ts`
present below the context directory, manual resolution rewrites the record's
request to that absolute path and reports `found`; the probes show the
ascending directory search and the candidate order (src prefix before none,
`.js` before `.ts`, plain file before directory index), stopping at the first
existing candidate. -/
theorem C4_subpath_manual_resolution :
    (adaptedResolve fsSubpath nativePPNE [] (("/proj/app/main.js").toList)
        (("@scope/pkg/deep/path").toList)).outcome = .found ∧
    (adaptedResolve fsSubpath nativePPNE [] (("/proj/app/main.js").toList)
        (("@scope/pkg/deep/path").toList)).request =
      ("/proj/app/node_modules/@scope/pkg/src/deep/path.ts").toList ∧
    (adaptedResolve fsSubpath nativePPNE [] (("/proj/app/main.js").toList)
        (("@scope/pkg/deep/path").toList)).probes =
      [pkgDir1, pkgDir1 ++ ("/src/deep/path.js").toList,
       pkgDir1 ++ ("/src/deep/path.ts").toList] ∧
    candidatePackageDirs (("/proj/app").toList) (("@scope/pkg").toList) =
      [("/proj/app/node_modules/@scope/pkg").toList,
       ("/proj/node_modules/@scope/pkg").toList,
       ("/node_modules/@scope/pkg").toList] ∧
    candidatePaths (("/P").toList) (("deep/path").toList) =
      [("/P/src/deep/path.js").toList, ("/P/src/deep/path.ts").toList,
       ("/P/src/deep/path/index.js").toList, ("/P/src/deep/path/index.ts").toList,
       ("/P/deep/path.js").toList, ("/P/deep/path.ts").toList,
       ("/P/deep/path/index.js").toList, ("/P/deep/path/index.ts").toList] := by
  decide

/-! ## Claim C6 -/

/-- Claim C6: a root specifier `@scope/pkg` whose manifest has
`{"main": "./index.js"}` and no `module` field resolves to
`<packageDir>/index.js` and reports `found`; the entry-point candidates are
probed in the order module, main, `src/index.js`, `src/index.ts`, `index.js`,
`index.ts`. -/
theorem C6_root_entry_points :
    (adaptedResolve fsRoot nativePPNE [] (("/proj/app/main.js").toList)
        (("@scope/pkg").toList)).outcome = .found ∧
    (adaptedResolve fsRoot nativePPNE [] (("/proj/app/main.js").toList)
        (("@scope/pkg").toList)).request = pkgDir1 ++ ("/index.js").toList ∧
    (adaptedResolve fsRoot nativePPNE [] (("/proj/app/main.js").toList)
        (("@scope/pkg").toList)).probes =
      [pkgDir1, pkgDir1 ++ ("/package.json").toList, pkgDir1 ++ ("/index.js").toList] ∧
    entryPoints ⟨some (("m.mjs").toList), some (("n.cjs").toList)⟩ =
      [("m.mjs").toList, ("n.cjs").toList, ("src/index.js").toList,
       ("src/index.ts").toList, ("index.js").toList, ("index.ts").toList] ∧
    entryPoints ⟨none, some (("./index.js").toList)⟩ =
      [("./index.js").toList, ("src/index.js").toList, ("src/index.ts").toList,
       ("index.js").toList, ("index.ts").toList] := by
  decide

/-! ## Claim C10 -/

/-- Claim C10 fails on the code: for an implicit-modules request whose
`contextInfo` is absent and for which no repair strategy produced a fallback
issuer, `from` still decides to construct and the constructor's read of
`state.contextInfo.issuer` throws (the `crash` outcome). -/
theorem C10_constructor_crash :
    (fromTracker ['p'] ['a'] stImplicitNoCtx []).outcome = .crash := by
  decide

/-! ## Claim C8 -/

/-- Counterexample to claim C8 as stated: a request with empty issuer whose
specifier does not match the implicit-modules convention, whose context
directory is tracked, is nonetheless declined when the specifier starts with
the loader-escape marker `!`. -/
theorem C8_counterexample :
    trackGet trApp stBang.context = some (("/app/foo.js").toList) ∧
    issuerOf stBang = [] ∧
    containsSub stBang.request implicitMarkerS = false ∧
    (fromTracker ['p'] ['a'] stBang trApp).outcome = .declined := by
  decide

/-! ## Claim C3 -/

/-- Counterexample to claim C3 as stated: in the compilation-tap variant,
`from` declines this record (its request starts with `!`) after having
repaired its issuer to `/app/foo.js` and its context to `/app`, so the
declined record is not left unmodified. -/
theorem C3_counterexample :
    (fromCompilation vpath0 ['p'] ['a'] stDepRepair).outcome = .declined ∧
    (fromCompilation vpath0 ['p'] ['a'] stDepRepair).state ≠ stDepRepair ∧
    (fromCompilation vpath0 ['p'] ['a'] stDepRepair).state.contextInfo =
      some ⟨("/app/foo.js").toList, none⟩ ∧
    (fromCompilation vpath0 ['p'] ['a'] stDepRepair).state.context =
      ("/app").toList := by
  decide

/-! ## Claim C5 -/

/-- Claim C5: a native-resolver failure whose error message does not carry the
export-restricted signature is reported as `not_found` with the original
error; no filesystem path is probed, and neither the record's request nor the
tracker changes. -/
theorem C5_non_ppne_failure (fs : FS) (native : Str → Str → NativeResult)
    (tracker : Tracker) (fromFile req m : Str) (res : Option Str)
    (h1 : containsSub req ['!'] = false)
    (h2 : native (dirname fromFile) req = ⟨some m, res⟩)
    (h3 : containsSub m ppneS = false) :
    (adaptedResolve fs native tracker fromFile req).outcome =
      .notFound (.native m) ∧
    (adaptedResolve fs native tracker fromFile req).probes = [] ∧
    (adaptedResolve fs native tracker fromFile req).request = req ∧
    (adaptedResolve fs native tracker fromFile req).tracker = tracker := by
  simp only [adaptedResolve, h1, h2, h3]
  simp [errOrSynth]

/-- A native resolver failing with an unrelated error, for the C5 witness. -/
def nativeBoom : Str → Str → NativeResult :=
  fun _ _ => ⟨some (("boom").toList), none⟩

/-- Witness for claim C5 at a concrete request. -/
theorem C5_witness :
    (adaptedResolve fsEmpty nativeBoom [] (("/a/b.js").toList)
        (("./x").toList)).outcome = .notFound (.native (("boom").toList)) ∧
    (adaptedResolve fsEmpty nativeBoom [] (("/a/b.js").toList)
        (("./x").toList)).probes = [] ∧
    (adaptedResolve fsEmpty nativeBoom [] (("/a/b.js").toList)
        (("./x").toList)).request = ("./x").toList ∧
    (adaptedResolve fsEmpty nativeBoom [] (("/a/b.js").toList)
        (("./x").toList)).tracker = [] :=
  C5_non_ppne_failure fsEmpty nativeBoom [] (("/a/b.js").toList) (("./x").toList)
    (("boom").toList) none (by decide) rfl (by decide)

/-! ## Claim C7 -/

/-- Claim C7: a request whose current specifier contains the loader-chain
marker `!` is accepted as `found` without invoking the native resolver; and
for the concrete virtualized specifier carrying `f=/app/foo.js`, the context
tracker gains the entry `dirname "/app/foo.js" -> "/app/foo.js"` as a side
effect. -/
theorem C7_loader_chain :
    (∀ (fs : FS) (native : Str → Str → NativeResult) (tr : Tracker) (ff req : Str),
      containsSub req ['!'] = true →
      (adaptedResolve fs native tr ff req).outcome = .found ∧
      (adaptedResolve fs native tr ff req).nativeInvoked = false) ∧
    (adaptedResolve fsEmpty nativeNever [] (("/a/b.js").toList) reqVirt).tracker =
      [(dirname (("/app/foo.js").toList), ("/app/foo.js").toList)] ∧
    (adaptedResolve fsEmpty nativeNever [] (("/a/b.js").toList) reqVirt).outcome =
      .found ∧
    (adaptedResolve fsEmpty nativeNever [] (("/a/b.js").toList)
        reqVirt).nativeInvoked = false := by
  refine ⟨fun fs native tr ff req h => ?_, by decide, by decide, by decide⟩
  simp only [adaptedResolve, h]
  simp

/-- Witness for claim C7: the universally quantified part applied at the
concrete virtualized specifier. -/
theorem C7_witness :
    (adaptedResolve fsEmpty nativeNever [] (("/a/b.js").toList) reqVirt).outcome =
      .found ∧
    (adaptedResolve fsEmpty nativeNever [] (("/a/b.js").toList)
        reqVirt).nativeInvoked = false :=
  C7_loader_chain.1 fsEmpty nativeNever [] (("/a/b.js").toList) reqVirt (by decide)

/-! ## Helper lemmas about `finishFrom`, `setIssuer` and the tracker -/

theorem finishFrom_state (p a : Str) (st : RawState) (tr : Tracker) :
    (finishFrom p a st tr).state = st := by
  simp only [finishFrom]
  split <;> rfl

theorem finishFrom_tracker (p a : Str) (st : RawState) (tr : Tracker) :
    (finishFrom p a st tr).tracker = tr := by
  simp only [finishFrom]
  split <;> rfl

theorem setIssuer_contextInfo (st : RawState) (i : Str) :
    ∃ m, (setIssuer st i).contextInfo = some ⟨i, m⟩ := by
  cases h : st.contextInfo with
  | some ci => exact ⟨ci.meta, by simp [setIssuer, h]⟩
  | none => exact ⟨none, by simp [setIssuer, h]⟩

theorem finishFrom_not_declined (p a : Str) (st : RawState) (tr : Tracker)
    (ci : ContextInfo) (hc : st.contextInfo = some ci) (hi : ci.issuer ≠ []) :
    (finishFrom p a st tr).outcome ≠ .declined := by
  have hb : (ci.issuer != ([] : Str)) = true := by simpa using hi
  simp [finishFrom, mkFromState, hc, hb]

theorem trackFirst_mem {tr : Tracker} {pred : Str → Bool} {v : Str}
    (h : trackFirst tr pred = some v) : ∃ kv ∈ tr, kv.2 = v := by
  unfold trackFirst at h
  cases hf : tr.find? (fun kv => pred kv.2) with
  | none => rw [hf] at h; simp at h
  | some kv =>
    rw [hf] at h
    exact ⟨kv, List.mem_of_find?_eq_some hf, by injection h⟩

theorem trackGet_mem {tr : Tracker} {k v : Str}
    (h : trackGet tr k = some v) : ∃ kv ∈ tr, kv.2 = v := by
  unfold trackGet at h
  cases hf : tr.find? (fun kv => kv.1 == k) with
  | none => rw [hf] at h; simp at h
  | some kv =>
    rw [hf] at h
    exact ⟨kv, List.mem_of_find?_eq_some hf, by injection h⟩

/-- Claim C3, amended (the factory-tap variant): whenever `from` declines,
the raw record is returned unmodified, provided the tracker holds only
non-empty filenames (which is an invariant of the two code paths that write
it). -/
theorem C3_amended (p a : Str) (st : RawState) (tr : Tracker)
    (hwf : ∀ kv ∈ tr, kv.2 ≠ ([] : Str))
    (h : (fromTracker p a st tr).outcome = .declined) :
    (fromTracker p a st tr).state = st := by
  by_cases h1 : containsSub st.request virtualLoaderNameS
  · simp [fromTracker, h1]
  · by_cases h2 : startsWithC '!' st.request
    · simp [fromTracker, h1, h2]
    · by_cases h3 : issuerOf st = ([] : Str)
      · by_cases h4 : containsSub st.request implicitMarkerS
        · rcases hfb : trackFirst tr implicitIssuerPred with - | v
          · by_cases h5 : containsSub st.context rewrittenAppS
            · exfalso
              have hfi : (st.context ++ implicitIssuerSuffixS) ≠ ([] : Str) := by
                simp [implicitIssuerSuffixS]
              obtain ⟨m, hm⟩ := setIssuer_contextInfo st
                (st.context ++ implicitIssuerSuffixS)
              exact finishFrom_not_declined p a
                (setIssuer st (st.context ++ implicitIssuerSuffixS)) tr
                ⟨st.context ++ implicitIssuerSuffixS, m⟩ hm hfi
                (by simpa [fromTracker, h1, h2, h3, h4, hfb, h5] using h)
            · simp [fromTracker, h1, h2, h3, h4, hfb, h5, finishFrom_state]
          · exfalso
            obtain ⟨kv, hkv, hv⟩ := trackFirst_mem hfb
            have hvne : v ≠ ([] : Str) := hv ▸ hwf kv hkv
            obtain ⟨m, hm⟩ := setIssuer_contextInfo st v
            exact finishFrom_not_declined p a (setIssuer st v) tr ⟨v, m⟩ hm hvne
              (by simpa [fromTracker, h1, h2, h3, h4, hfb] using h)
        · rcases hg : trackGet tr st.context with - | vm
          · simp [fromTracker, h1, h2, h3, h4, hg]
          · exfalso
            obtain ⟨kv, hkv, hv⟩ := trackGet_mem hg
            have hvne : vm ≠ ([] : Str) := hv ▸ hwf kv hkv
            obtain ⟨m, hm⟩ := setIssuer_contextInfo st vm
            exact finishFrom_not_declined p a (setIssuer st vm) tr ⟨vm, m⟩ hm hvne
              (by simpa [fromTracker, h1, h2, h3, h4, hg] using h)
      · simp [fromTracker, h1, h2, h3, finishFrom_state]

/-- Witness for the amended claim C3 at a concrete declining record. -/
theorem C3_witness : (fromTracker ['p'] ['a'] stPlain []).state = stPlain :=
  C3_amended ['p'] ['a'] stPlain [] (by decide) (by decide)

/-- Claim C8, amended: for a request with empty issuer whose specifier
matches neither the implicit-modules convention nor the virtual loader and
does not start with `!`, construction looks the context directory up in the
tracker; a hit (tracked filenames are non-empty) repairs the issuer to the
tracked filename and constructs, a miss declines. -/
theorem C8_amended (p a : Str) (st : RawState) (tr : Tracker)
    (hwf : ∀ kv ∈ tr, kv.2 ≠ ([] : Str))
    (hEmpty : issuerOf st = ([] : Str))
    (hImp : containsSub st.request implicitMarkerS = false)
    (hVirt : containsSub st.request virtualLoaderNameS = false)
    (hBang : startsWithC '!' st.request = false) :
    (trackGet tr st.context = none → (fromTracker p a st tr).outcome = .declined) ∧
    (∀ vm, trackGet tr st.context = some vm →
      ∃ r, (fromTracker p a st tr).outcome = .constructed r ∧ r.fromFile = vm ∧
        (fromTracker p a st tr).state = setIssuer st vm) := by
  constructor
  · intro hg
    simp [fromTracker, hVirt, hBang, hEmpty, hImp, hg]
  · intro vm hg
    obtain ⟨kv, hkv, hv⟩ := trackGet_mem hg
    have hvne : vm ≠ ([] : Str) := hv ▸ hwf kv hkv
    obtain ⟨m, hm⟩ := setIssuer_contextInfo st vm
    have hred : fromTracker p a st tr = finishFrom p a (setIssuer st vm) tr := by
      simp [fromTracker, hVirt, hBang, hEmpty, hImp, hg]
    rw [hred]
    have hb : (vm != ([] : Str)) = true := by simpa using hvne
    have hfin : (finishFrom p a (setIssuer st vm) tr).outcome =
        .constructed (mkRequest p a
          ⟨(setIssuer st vm).request, (setIssuer st vm).context, vm, m⟩ false) := by
      simp [finishFrom, mkFromState, hm, hb]
    exact ⟨_, hfin, rfl, finishFrom_state _ _ _ _⟩

/-- Witness for the amended claim C8: the tracked entry `/app -> /app/foo.js`
repairs the issuer of a plain request issued from `/app`. -/
theorem C8_witness :
    ∃ r, (fromTracker ['p'] ['a'] stPlain trApp).outcome = .constructed r ∧
      r.fromFile = ("/app/foo.js").toList ∧
      (fromTracker ['p'] ['a'] stPlain trApp).state =
        setIssuer stPlain (("/app/foo.js").toList) :=
  (C8_amended ['p'] ['a'] stPlain trApp (by decide) (by decide) (by decide)
      (by decide) (by decide)).2 (("/app/foo.js").toList) (by decide)

/-! ## Helper lemmas about `takeWhile` and the classifier -/

theorem takeWhile_ne_self (xs : Str) (c : Char) (h : ∀ x ∈ xs, x ≠ c) :
    xs.takeWhile (fun x => x ≠ c) = xs :=
  List.takeWhile_eq_self_iff.mpr (by intro x hx; simpa using h x hx)

theorem takeWhile_ne_append (xs ys : Str) (c : Char) (h : ∀ x ∈ xs, x ≠ c) :
    (xs ++ c :: ys).takeWhile (fun x => x ≠ c) = xs := by
  rw [List.takeWhile_append_of_pos (by intro u hu; simpa using h u hu)]
  rw [List.takeWhile_cons_of_neg (by simp)]
  simp

theorem takeWhile_ne_pref (b r : Str) (c : Char) (hsb : ∀ x ∈ b, x ≠ c)
    (hr : r = ([] : Str) ∨ startsWithC c r = true) :
    (b ++ r).takeWhile (fun x => x ≠ c) = b := by
  rcases hr with hr | hr
  · rw [hr, List.append_nil]
    exact takeWhile_ne_self b c hsb
  · cases r with
    | nil => simp [startsWithC] at hr
    | cons y ys =>
      have hyc : y = c := by simpa [startsWithC] using hr
      rw [hyc]
      exact takeWhile_ne_append b ys c hsb

theorem matchTwoSeg_append (a b r : Str) (ha : a ≠ ([] : Str)) (hb : b ≠ ([] : Str))
    (hsa : ∀ c ∈ a, c ≠ '/') (hsb : ∀ c ∈ b, c ≠ '/')
    (hr : r = ([] : Str) ∨ startsWithC '/' r = true) :
    matchTwoSeg (a ++ '/' :: (b ++ r)) = some (a ++ '/' :: b, r) := by
  unfold matchTwoSeg
  have h0 : (a ++ '/' :: (b ++ r)).takeWhile (fun c => c ≠ '/') = a :=
    takeWhile_ne_append a (b ++ r) '/' hsa
  rw [h0]
  have hd : (a ++ '/' :: (b ++ r)).drop a.length = '/' :: (b ++ r) :=
    List.drop_left a ('/' :: (b ++ r))
  simp only [ha, if_neg, hd]
  have h1 : (b ++ r).takeWhile (fun c => c ≠ '/') = b :=
    takeWhile_ne_pref b r '/' hsb hr
  simp only [h1]
  have hd2 : (b ++ r).drop b.length = r := List.drop_left b r
  simp [ha, hb, hd2]

theorem matchTwoSeg_slashFree (s : Str) (hs : ∀ c ∈ s, c ≠ '/') :
    matchTwoSeg s = none := by
  unfold matchTwoSeg
  cases hsnil : s with
  | nil => rfl
  | cons y ys =>
    rw [← hsnil]
    have h0 : s.takeWhile (fun c => c ≠ '/') = s := takeWhile_ne_self s '/' hs
    rw [h0]
    simp [hsnil, List.drop_length]

/-! ## Claim C2 -/

/-- Claim C2, amended: a specifier with exactly two non-empty slash-free
segments is classified as a root package import of those two segments (even
unscoped, e.g. `lodash/fp` is the root package `lodash/fp`); one with two
such segments and a non-empty remainder is a subpath import whose package name
is the first two segments; and a slash-free specifier (such as bare `lodash`)
matches neither pattern, so it receives no manual probing. -/
theorem C2_amended (a b rest : Str) (ha : a ≠ ([] : Str)) (hb : b ≠ ([] : Str))
    (hsa : ∀ c ∈ a, c ≠ '/') (hsb : ∀ c ∈ b, c ≠ '/') :
    classify (a ++ '/' :: b) = .rootImp (a ++ '/' :: b) ∧
    (rest ≠ ([] : Str) →
      classify (a ++ '/' :: (b ++ '/' :: rest)) = .subpathImp (a ++ '/' :: b) rest) ∧
    (∀ s : Str, (∀ c ∈ s, c ≠ '/') → classify s = .neither) := by
  refine ⟨?_, fun hrest => ?_, fun s hs => ?_⟩
  · have hm := matchTwoSeg_append a b [] ha hb hsa hsb (Or.inl rfl)
    unfold classify
    rw [show a ++ '/' :: b = a ++ '/' :: (b ++ []) by simp, hm]
    simp
  · have hm := matchTwoSeg_append a b ('/' :: rest) ha hb hsa hsb (Or.inr rfl)
    unfold classify
    rw [hm]
    simp [hrest]
  · unfold classify
    rw [matchTwoSeg_slashFree s hs]

/-- Witness for the amended claim C2 at concrete specifiers. -/
theorem C2_witness :
    classify (['a'] ++ '/' :: ['b']) = .rootImp (['a'] ++ '/' :: ['b']) ∧
    classify (['a'] ++ '/' :: (['b'] ++ '/' :: ['c'])) =
      .subpathImp (['a'] ++ '/' :: ['b']) ['c'] ∧
    classify (("lodash").toList) = .neither := by
  obtain ⟨h1, h2, h3⟩ :=
    C2_amended ['a'] ['b'] ['c'] (by decide) (by decide) (by decide) (by decide)
  exact ⟨h1, h2 (by decide), h3 (("lodash").toList) (by decide)⟩

/-! ## Round-trip lemmas for the urlencoded codec -/

theorem char_toNat_lt (c : Char) : c.toNat < 1114112 := by
  rcases c.valid with h | h
  · exact Nat.lt_trans h (by norm_num)
  · exact h.2

theorem utf8Bytes_lt (c : Char) : ∀ b ∈ utf8Bytes c, b < 256 := by
  have hv := char_toNat_lt c
  intro b hb
  unfold utf8Bytes at hb
  split_ifs at hb <;> simp at hb <;> omega

theorem utf8Step_length (b : Nat) (rest : List Nat) :
    (utf8Step (b :: rest)).2.length ≤ rest.length := by
  rcases rest with - | ⟨b2, rest2⟩
  · simp only [utf8Step]
    split_ifs <;> simp
  · rcases rest2 with - | ⟨b3, rest3⟩
    · simp only [utf8Step]
      split_ifs <;> simp
    · rcases rest3 with - | ⟨b4, rest4⟩
      · simp only [utf8Step]
        split_ifs <;> simp
      · simp only [utf8Step]
        split_ifs <;> simp <;> omega

theorem utf8DecodeAux_congr (f1 : Nat) :
    ∀ (f2 : Nat) (l : List Nat), l.length ≤ f1 → l.length ≤ f2 →
      utf8DecodeAux f1 l = utf8DecodeAux f2 l := by
  induction f1 with
  | zero =>
    intro f2 l h1 _
    have : l = [] := List.eq_nil_of_length_eq_zero (Nat.le_zero.mp h1)
    subst this
    cases f2 <;> rfl
  | succ k ih =>
    intro f2 l h1 h2
    cases l with
    | nil => cases f2 <;> rfl
    | cons b rest =>
      cases f2 with
      | zero => simp at h2
      | succ m =>
        simp only [utf8DecodeAux]
        have hs := utf8Step_length b rest
        have hl1 : (utf8Step (b :: rest)).2.length ≤ k := by
          simp at h1; omega
        have hl2 : (utf8Step (b :: rest)).2.length ≤ m := by
          simp at h2; omega
        rw [ih m (utf8Step (b :: rest)).2 hl1 hl2]

theorem utf8Decode_cons (b : Nat) (rest : List Nat) :
    utf8Decode (b :: rest) =
      (utf8Step (b :: rest)).1 :: utf8Decode (utf8Step (b :: rest)).2 := by
  unfold utf8Decode
  simp only [List.length_cons, utf8DecodeAux]
  have hs := utf8Step_length b rest
  rw [utf8DecodeAux_congr rest.length (utf8Step (b :: rest)).2.length
    (utf8Step (b :: rest)).2 hs (Nat.le_refl _)]

theorem utf8Step_ascii (b : Nat) (hb : b < 128) (rest : List Nat) :
    utf8Step (b :: rest) = (Char.ofNat b, rest) := by
  simp [utf8Step, hb]

theorem utf8Step_two (b1 b2 : Nat) (h1 : 194 ≤ b1) (h2 : b1 < 224)
    (h3 : 128 ≤ b2) (h4 : b2 < 192) (rest : List Nat) :
    utf8Step (b1 :: b2 :: rest) =
      (Char.ofNat ((b1 - 192) * 64 + (b2 - 128)), rest) := by
  simp only [utf8Step]
  rw [if_neg (by omega), if_pos ⟨h1, h2⟩]
  exact if_pos ⟨h3, h4⟩

theorem utf8Step_three (b1 b2 b3 : Nat) (h1 : 224 ≤ b1) (h2 : b1 < 240)
    (h3 : 128 ≤ b2) (h4 : b2 < 192) (h5 : 128 ≤ b3) (h6 : b3 < 192)
    (rest : List Nat) :
    utf8Step (b1 :: b2 :: b3 :: rest) =
      (Char.ofNat ((b1 - 224) * 4096 + (b2 - 128) * 64 + (b3 - 128)), rest) := by
  simp only [utf8Step]
  rw [if_neg (by omega), if_neg (by omega), if_pos ⟨h1, h2⟩]
  exact if_pos ⟨⟨h3, h4⟩, h5, h6⟩

theorem utf8Step_four (b1 b2 b3 b4 : Nat) (h1 : 240 ≤ b1) (h2 : b1 < 245)
    (h3 : 128 ≤ b2) (h4 : b2 < 192) (h5 : 128 ≤ b3) (h6 : b3 < 192)
    (h7 : 128 ≤ b4) (h8 : b4 < 192) (rest : List Nat) :
    utf8Step (b1 :: b2 :: b3 :: b4 :: rest) =
      (Char.ofNat ((b1 - 240) * 262144 + (b2 - 128) * 4096 + (b3 - 128) * 64 +
        (b4 - 128)), rest) := by
  simp only [utf8Step]
  rw [if_neg (by omega), if_neg (by omega), if_neg (by omega), if_pos ⟨h1, h2⟩]
  exact if_pos ⟨⟨h3, h4⟩, ⟨h5, h6⟩, h7, h8⟩

theorem utf8Decode_utf8Bytes_cons (c : Char) (rest : List Nat) :
    utf8Decode (utf8Bytes c ++ rest) = c :: utf8Decode rest := by
  have hv := char_toNat_lt c
  by_cases h1 : c.toNat < 128
  · rw [show utf8Bytes c = [c.toNat] by simp [utf8Bytes, h1]]
    rw [List.cons_append, List.nil_append, utf8Decode_cons,
      utf8Step_ascii c.toNat h1 rest, Char.ofNat_toNat]
  · by_cases h2 : c.toNat < 2048
    · rw [show utf8Bytes c = [192 + c.toNat / 64, 128 + c.toNat % 64] by
        simp [utf8Bytes, h1, h2]]
      simp only [List.cons_append, List.nil_append]
      rw [utf8Decode_cons,
        utf8Step_two _ _ (by omega) (by omega) (by omega) (by omega) rest]
      have he : (192 + c.toNat / 64 - 192) * 64 + (128 + c.toNat % 64 - 128) =
          c.toNat := by omega
      rw [he, Char.ofNat_toNat]
    · by_cases h3 : c.toNat < 65536
      · rw [show utf8Bytes c =
            [224 + c.toNat / 4096, 128 + c.toNat / 64 % 64, 128 + c.toNat % 64] by
          simp [utf8Bytes, h1, h2, h3]]
        simp only [List.cons_append, List.nil_append]
        rw [utf8Decode_cons, utf8Step_three _ _ _ (by omega) (by omega) (by omega)
          (by omega) (by omega) (by omega) rest]
        have he : (224 + c.toNat / 4096 - 224) * 4096 +
            (128 + c.toNat / 64 % 64 - 128) * 64 + (128 + c.toNat % 64 - 128) =
            c.toNat := by omega
        rw [he, Char.ofNat_toNat]
      · rw [show utf8Bytes c =
            [240 + c.toNat / 262144, 128 + c.toNat / 4096 % 64,
             128 + c.toNat / 64 % 64, 128 + c.toNat % 64] by
          simp [utf8Bytes, h1, h2, h3]]
        simp only [List.cons_append, List.nil_append]
        rw [utf8Decode_cons, utf8Step_four _ _ _ _ (by omega) (by omega)
          (by omega) (by omega) (by omega) (by omega) (by omega) (by omega) rest]
        have he : (240 + c.toNat / 262144 - 240) * 262144 +
            (128 + c.toNat / 4096 % 64 - 128) * 4096 +
            (128 + c.toNat / 64 % 64 - 128) * 64 + (128 + c.toNat % 64 - 128) =
            c.toNat := by omega
        rw [he, Char.ofNat_toNat]

theorem utf8_roundtrip (v : Str) : utf8Decode (v.flatMap utf8Bytes) = v := by
  induction v with
  | nil => rfl
  | cons c cs ih => rw [List.flatMap_cons, utf8Decode_utf8Bytes_cons, ih]

set_option maxRecDepth 4096 in
theorem encByte_map_toNat : ∀ b, b < 256 → (encByte b).map Char.toNat = encByteB b := by
  decide

set_option maxRecDepth 4096 in
theorem encByte_ascii : ∀ b, b < 256 → ∀ c ∈ encByte b, c.toNat < 128 := by
  decide

set_option maxRecDepth 4096 in
theorem encByte_ne : ∀ b, b < 256 → ∀ c ∈ encByte b, c ≠ '&' ∧ c ≠ '=' := by
  decide

theorem hexDigitVal_hexUpper : ∀ d, d < 16 → hexDigitVal ((hexUpper d).toNat) = some d := by
  decide

theorem pdStep_length (b : Nat) (rest : List Nat) :
    (pdStep (b :: rest)).2.length ≤ rest.length := by
  rcases rest with - | ⟨h1, rest1⟩
  · simp only [pdStep]
    split_ifs <;> simp
  · rcases rest1 with - | ⟨h2, rest2⟩
    · simp only [pdStep]
      split_ifs <;> simp
    · simp only [pdStep]
      split_ifs
      · rcases hd1 : hexDigitVal h1 with - | d1
        · simp [hd1]
        · rcases hd2 : hexDigitVal h2 with - | d2
          · simp [hd1, hd2]
          · simp [hd1, hd2]
            omega
      · simp
      · simp

theorem pdAux_congr (f1 : Nat) :
    ∀ (f2 : Nat) (l : List Nat), l.length ≤ f1 → l.length ≤ f2 →
      pdAux f1 l = pdAux f2 l := by
  induction f1 with
  | zero =>
    intro f2 l h1 _
    have : l = [] := List.eq_nil_of_length_eq_zero (Nat.le_zero.mp h1)
    subst this
    cases f2 <;> rfl
  | succ k ih =>
    intro f2 l h1 h2
    cases l with
    | nil => cases f2 <;> rfl
    | cons b rest =>
      cases f2 with
      | zero => simp at h2
      | succ m =>
        simp only [pdAux]
        have hs := pdStep_length b rest
        have hl1 : (pdStep (b :: rest)).2.length ≤ k := by simp at h1; omega
        have hl2 : (pdStep (b :: rest)).2.length ≤ m := by simp at h2; omega
        rw [ih m (pdStep (b :: rest)).2 hl1 hl2]

theorem pdBytes_cons (b : Nat) (rest : List Nat) :
    pdBytes (b :: rest) = (pdStep (b :: rest)).1 :: pdBytes (pdStep (b :: rest)).2 := by
  unfold pdBytes
  simp only [List.length_cons, pdAux]
  have hs := pdStep_length b rest
  rw [pdAux_congr rest.length (pdStep (b :: rest)).2.length
    (pdStep (b :: rest)).2 hs (Nat.le_refl _)]

theorem pdBytes_encByteB (b : Nat) (hb : b < 256) (rest : List Nat) :
    pdBytes (encByteB b ++ rest) = b :: pdBytes rest := by
  by_cases hs : safeByte b
  · have h37 : b ≠ 37 := by intro h; rw [h] at hs; exact absurd hs (by decide)
    have h43 : b ≠ 43 := by intro h; rw [h] at hs; exact absurd hs (by decide)
    rw [show encByteB b = [b] by simp [encByteB, hs]]
    rw [List.cons_append, List.nil_append, pdBytes_cons]
    have hstep : pdStep (b :: rest) = (b, rest) := by
      simp [pdStep, h37, h43]
    rw [hstep]
  · by_cases h32 : b = 32
    · subst h32
      rw [show encByteB 32 = [43] by decide]
      rw [List.cons_append, List.nil_append, pdBytes_cons]
      rw [show pdStep (43 :: rest) = (32, rest) by simp [pdStep]]
    · have hd1 := hexDigitVal_hexUpper (b / 16) (by omega)
      have hd2 := hexDigitVal_hexUpper (b % 16) (by omega)
      rw [show encByteB b =
          [37, (hexUpper (b / 16)).toNat, (hexUpper (b % 16)).toNat] by
        simp [encByteB, hs, h32]]
      simp only [List.cons_append, List.nil_append]
      rw [pdBytes_cons]
      have hstep : pdStep (37 :: (hexUpper (b / 16)).toNat ::
          (hexUpper (b % 16)).toNat :: rest) = (b, rest) := by
        simp only [pdStep, if_pos rfl, hd1, hd2]
        have : 16 * (b / 16) + b % 16 = b := by omega
        simp [this]
      rw [hstep]

theorem pdBytes_flatMap (l : List Nat) (h : ∀ b ∈ l, b < 256) :
    pdBytes (l.flatMap encByteB) = l := by
  induction l with
  | nil => rfl
  | cons b bs ih =>
    rw [List.flatMap_cons, pdBytes_encByteB b (h b (by simp)),
      ih (fun x hx => h x (by simp [hx]))]

theorem ascii_flatMap (s : Str) (h : ∀ c ∈ s, c.toNat < 128) :
    s.flatMap utf8Bytes = s.map Char.toNat := by
  induction s with
  | nil => rfl
  | cons c cs ih =>
    rw [List.flatMap_cons, List.map_cons,
      show utf8Bytes c = [c.toNat] by simp [utf8Bytes, h c (by simp)],
      ih (fun x hx => h x (by simp [hx]))]
    rfl

theorem encStr_bytes_lt (v : Str) : ∀ b ∈ v.flatMap utf8Bytes, b < 256 := by
  intro b hb
  rcases List.mem_flatMap.mp hb with ⟨c, -, hc⟩
  exact utf8Bytes_lt c b hc

theorem encStr_ascii (v : Str) : ∀ ch ∈ encStr v, ch.toNat < 128 := by
  intro ch hch
  rcases List.mem_flatMap.mp hch with ⟨b, hbmem, hbc⟩
  exact encByte_ascii b (encStr_bytes_lt v b hbmem) ch hbc

theorem encStr_ne (v : Str) : ∀ ch ∈ encStr v, ch ≠ '&' ∧ ch ≠ '=' := by
  intro ch hch
  rcases List.mem_flatMap.mp hch with ⟨b, hbmem, hbc⟩
  exact encByte_ne b (encStr_bytes_lt v b hbmem) ch hbc

theorem decodeComp_encStr (v : Str) : decodeComp (encStr v) = v := by
  have gen : ∀ (l : List Nat), (∀ b ∈ l, b < 256) →
      (l.flatMap encByte).map Char.toNat = l.flatMap encByteB := by
    intro l hl
    induction l with
    | nil => rfl
    | cons b bs ih =>
      rw [List.flatMap_cons, List.flatMap_cons, List.map_append,
        encByte_map_toNat b (hl b (by simp)), ih (fun x hx => hl x (by simp [hx]))]
  unfold decodeComp
  rw [ascii_flatMap (encStr v) (encStr_ascii v)]
  rw [show (encStr v).map Char.toNat = (v.flatMap utf8Bytes).flatMap encByteB from
    gen (v.flatMap utf8Bytes) (encStr_bytes_lt v)]
  rw [pdBytes_flatMap (v.flatMap utf8Bytes) (encStr_bytes_lt v)]
  exact utf8_roundtrip v

/-! ## Splitting lemmas for the query parser -/

theorem splitOnC_of_forall_ne (c : Char) (l : Str) (h : ∀ x ∈ l, x ≠ c) :
    splitOnC c l = [l] := by
  induction l with
  | nil => rfl
  | cons y ys ih =>
    have hy : y ≠ c := h y (by simp)
    simp only [splitOnC, hy, if_neg, ih (fun x hx => h x (by simp [hx]))]
    simp [hy]

theorem splitOnC_append (c : Char) (xs ys : Str) (h : ∀ x ∈ xs, x ≠ c) :
    splitOnC c (xs ++ c :: ys) = xs :: splitOnC c ys := by
  induction xs with
  | nil => simp [splitOnC]
  | cons y zs ih =>
    have hy : y ≠ c := h y (by simp)
    simp only [List.cons_append, splitOnC, ih (fun x hx => h x (by simp [hx]))]
    simp [hy]
    cases hzs : splitOnC c (zs ++ c :: ys) with
    | nil => rw [ih (fun x hx => h x (by simp [hx]))] at hzs; exact absurd hzs (by simp)
    | cons s ss =>
      rw [ih (fun x hx => h x (by simp [hx]))] at hzs
      injection hzs with h1 h2
      rw [h1, h2]

theorem dropWhile_ne_append (xs ys : Str) (c : Char) (h : ∀ x ∈ xs, x ≠ c) :
    (xs ++ c :: ys).dropWhile (fun x => x ≠ c) = c :: ys := by
  induction xs with
  | nil => simp [List.dropWhile_cons]
  | cons y zs ih =>
    have hy : y ≠ c := h y (by simp)
    rw [List.cons_append, List.dropWhile_cons, if_pos (by simp [hy])]
    exact ih (fun x hx => h x (by simp [hx]))

theorem parseQuery_serializeTwo (k1 v1 k2 v2 : Str) :
    parseQuery (serializeQuery [(k1, v1), (k2, v2)]) = [(k1, v1), (k2, v2)] := by
  have hser : serializeQuery [(k1, v1), (k2, v2)] =
      (encStr k1 ++ '=' :: encStr v1) ++ '&' :: (encStr k2 ++ '=' :: encStr v2) := by
    simp [serializeQuery, interJoin]
  have hne1 : ∀ x ∈ encStr k1 ++ '=' :: encStr v1, x ≠ '&' := by
    intro x hx
    rcases List.mem_append.mp hx with hx | hx
    · exact (encStr_ne k1 x hx).1
    · rcases List.mem_cons.mp hx with rfl | hx
      · decide
      · exact (encStr_ne v1 x hx).1
  have hne2 : ∀ x ∈ encStr k2 ++ '=' :: encStr v2, x ≠ '&' := by
    intro x hx
    rcases List.mem_append.mp hx with hx | hx
    · exact (encStr_ne k2 x hx).1
    · rcases List.mem_cons.mp hx with rfl | hx
      · decide
      · exact (encStr_ne v2 x hx).1
  have hsplit : splitOnC '&' (serializeQuery [(k1, v1), (k2, v2)]) =
      [encStr k1 ++ '=' :: encStr v1, encStr k2 ++ '=' :: encStr v2] := by
    rw [hser, splitOnC_append '&' _ _ hne1, splitOnC_of_forall_ne '&' _ hne2]
  have hcomp : ∀ (k v : Str),
      (fun p => if p = ([] : Str) then none
        else
          some (decodeComp (p.takeWhile (fun c => c ≠ '=')),
                decodeComp ((p.dropWhile (fun c => c ≠ '=')).drop 1)))
        (encStr k ++ '=' :: encStr v) = some (k, v) := by
    intro k v
    simp only
    rw [if_neg (by simp)]
    rw [takeWhile_ne_append _ _ '=' (fun x hx => (encStr_ne k x hx).2)]
    rw [dropWhile_ne_append _ _ '=' (fun x hx => (encStr_ne k x hx).2)]
    simp [decodeComp_encStr]
  unfold parseQuery
  rw [hsplit]
  simp only [List.filterMap_cons, hcomp k1 v1, hcomp k2 v2, List.filterMap_nil]

/-! ## Claim C9 -/

/-- Claim C9: for every filename `f` and app root `a`, `virtualize f` yields
an instance whose specifier is
`<loaderPrefix><virtualLoaderName>?<urlencoded f and a>!`, whose `isVirtual`
flag is true, and parsing that specifier's query part with the urlencoded
parser recovers exactly `f` and `a`. -/
theorem C9_virtualize_roundtrip (p a f : Str) (st : ReqState) :
    ((mkRequest p a st false).virtualize f).specifier =
      p ++ virtualLoaderNameS ++ '?' :: serializeQuery [(['f'], f), (['a'], a)] ++ ['!'] ∧
    ((mkRequest p a st false).virtualize f).isVirtual = true ∧
    getParam (serializeQuery [(['f'], f), (['a'], a)]) ['f'] = some f ∧
    getParam (serializeQuery [(['f'], f), (['a'], a)]) ['a'] = some a := by
  refine ⟨rfl, rfl, ?_, ?_⟩
  · unfold getParam
    rw [parseQuery_serializeTwo]
    simp [List.find?]
  · unfold getParam
    rw [parseQuery_serializeTwo]
    simp [List.find?]

end Embroider
